import Mathlib

/-!
# Verification of the READNING emotion-aware segmentation and generation pipeline

This file gives a shallow embedding, in Lean 4, of the core text-processing
pipeline of the READNING repository and proves (or refutes) the specified
properties of its components:

* `services/chunk_processor.py` — position calculation, phase sorting,
  significance filtering, chunk validation and the phase-based splitter;
* `services/analyze_emotions_with_gpt.py` — the retry wrapper around the
  external phase-detection capability and its position reconciliation;
* `services/split_text.py` — the segment splitter (sliding-window loop);
* `services/find_turning_points_in_text.py` — turning-point collection,
  sorting, and the minimum-gap/maximum-count filter;
* `services/langgraph_workflow.py` — the final-chunk assembly node;
* `services/async_music_generation.py` — the batched generation orchestrator;
* `routers/musicgen_upload_router.py` — the idempotency gate of
  `generate_music_long`.

Python strings are modelled as `List Char`; Python slices `s[a:b]` become
`(s.drop a).take (b - a)` (both clamp out-of-range bounds the same way);
`str.find` becomes `findSub` returning `Option Nat` (Python's `-1` is `none`);
`None`-able integers become `Option Nat`/`Option Int`.  External capabilities
(the LLM phase detector, the NLTK sentence tokenizer, the MusicGen model, the
file system) are oracle parameters, so every theorem quantifies over their
behaviour.  Python's `sorted`/`list.sort` (a stable sort) is modelled by a
stable insertion sort.
-/

namespace Readning

/-! ## Characters and whitespace (Python `str.strip`) -/

/-- ASCII whitespace recognised by Python's `str.strip()` with no argument
(the source texts the repository strips are treated at this level). -/
def isWs (c : Char) : Bool :=
  c = ' ' || c = '\t' || c = '\n' || c = '\r' || c = '\x0b' || c = '\x0c'

/-- Python `s.lstrip()`. -/
def lstrip (s : List Char) : List Char := s.dropWhile isWs

/-- Python `s.strip()`: drop whitespace from both ends. -/
def strip (s : List Char) : List Char :=
  ((s.dropWhile isWs).reverse.dropWhile isWs).reverse

/-- Erase every whitespace character.  This is the comparison modulus used to
state "reconstructs the original text except for trimmed whitespace". -/
def stripAll (s : List Char) : List Char := s.filter (fun c => !isWs c)

/-- Python `haystack.find(needle)`: index of the first occurrence, `none` when
absent (Python returns `-1`).  `find("")` is `some 0`, as in Python. -/
def findSub (s pat : List Char) : Option Nat :=
  if pat.isPrefixOf s then some 0
  else
    match s with
    | [] => none
    | _ :: t => (findSub t pat).map (· + 1)

/-! ## Configuration constants (`config.py`) -/

def MIN_CHUNK_SIZE : Nat := 50
def MAX_CHUNK_SIZE : Nat := 8000
def SIGNIFICANCE_THRESHOLD : Nat := 3
def MAX_SEGMENT_SIZE : Nat := 6000
def OVERLAP_SIZE : Nat := 250
def CHUNKS_PER_PAGE : Nat := 4

/-! ## Data model -/

/-- Model of `EmotionalPhase` (`services/types.py`,
`analyze_emotions_with_gpt.py`):
one detected emotional transition.  `position_in_full_text` is `none` until
reconciled (Python `None`). -/
structure EmotionalPhase where
  start_text : List Char
  emotions_before : String
  emotions_after : String
  significance : Nat
  explanation : String
  position_in_full_text : Option Nat
deriving Repr, DecidableEq

/-- The context dict attached to a chunk.  Chunks cut at a phase boundary set
all four keys; trailing/whole-text chunks set only `emotions`. -/
structure ChunkContext where
  emotions : String
  transition : Option String
  significance : Option Nat
  explanation : Option String
deriving Repr, DecidableEq

/-- A produced chunk: the `(chunk_text, context)` tuple of the Python code. -/
abbrev Chunk := List Char × ChunkContext

/-- Concatenation, in output order, of the texts of a chunk list. -/
def joinTexts (cs : List Chunk) : List Char := (cs.map Prod.fst).flatten

/-! ## Stable sorting (Python `sorted` / `list.sort`) -/

/-- Insert `a` before the first element `b` with `le a b`; ties keep `a`
first, matching the stability of Python's sort. -/
def insortBy (le : α → α → Bool) (a : α) : List α → List α
  | [] => [a]
  | b :: l => if le a b then a :: b :: l else b :: insortBy le a l

/-- Stable insertion sort: the model of Python's `sorted(key=...)`. -/
def stableSortBy (le : α → α → Bool) : List α → List α
  | [] => []
  | a :: l => insortBy le a (stableSortBy le l)

/-- Comparison of reconciled positions: `None` maps to `float('inf')`, so it
compares greater than every concrete position (`chunk_processor.py` line 74,
`analyze_emotions_with_gpt.py` line 107). -/
def posLe : Option Nat → Option Nat → Bool
  | _, none => true
  | none, some _ => false
  | some a, some b => a ≤ b

/-! ## `services/chunk_processor.py` -/

/-- Model of `calculate_phase_position` (lines 18–55): exact search for the stripped
anchor, then a fuzzy retry with its first 30 characters, else `None`. -/
def calculate_phase_position (segment : List Char) (phase : EmotionalPhase) :
    Option Nat :=
  let start_text := strip phase.start_text
  if start_text.isEmpty then none
  else
    match findSub segment start_text with
    | some position => some position
    | none =>
      match findSub segment (start_text.take 30) with
      | some position => some position
      | none => none

/-- Model of `sort_phases_by_position` (lines 58–78): stable sort by position with
`None` keyed as `float('inf')`. -/
def sort_phases_by_position (phases : List EmotionalPhase) :
    List EmotionalPhase :=
  stableSortBy
    (fun p q => posLe p.position_in_full_text q.position_in_full_text) phases

/-- Model of `filter_significant_phases` (lines 81–105). -/
def filter_significant_phases (phases : List EmotionalPhase)
    (threshold : Nat := SIGNIFICANCE_THRESHOLD) : List EmotionalPhase :=
  phases.filter (fun p => threshold ≤ p.significance)

/-- Model of `is_valid_chunk` (lines 139–152): falsy or whitespace-only text is
invalid; otherwise the length must lie in `[MIN_CHUNK_SIZE, MAX_CHUNK_SIZE]`. -/
def is_valid_chunk (chunk_text : List Char) : Bool :=
  if chunk_text.isEmpty || (strip chunk_text).isEmpty then false
  else decide (MIN_CHUNK_SIZE ≤ chunk_text.length) &&
    decide (chunk_text.length ≤ MAX_CHUNK_SIZE)

/-- Python `chunks[-1] = (prev_text + " " + final_text, prev_context)`:
concatenate `t` (with a single separating space) onto the last chunk's text.
On an empty list this is the `elif chunks:` guard failing — nothing happens. -/
def mergeIntoLast (t : List Char) : List Chunk → List Chunk
  | [] => []
  | [(prev_text, prev_context)] => [(prev_text ++ [' '] ++ t, prev_context)]
  | c :: rest => c :: mergeIntoLast t rest

/-- The `for phase in valid_phases` loop of `split_text_by_phases`
(lines 195–220), carrying the accumulated chunks and `last_pos`. -/
def splitLoop (text : List Char) :
    List EmotionalPhase → List Chunk → Nat → List Chunk × Nat
  | [], chunks, last_pos => (chunks, last_pos)
  | p :: ps, chunks, last_pos =>
    if p.position_in_full_text.getD 0 ≤ last_pos then
      splitLoop text ps chunks last_pos
    else if is_valid_chunk (strip ((text.drop last_pos).take
        (p.position_in_full_text.getD 0 - last_pos))) then
      splitLoop text ps
        (chunks ++ [(strip ((text.drop last_pos).take
            (p.position_in_full_text.getD 0 - last_pos)),
          ⟨p.emotions_before, some p.emotions_after, some p.significance,
            some p.explanation⟩)]) (p.position_in_full_text.getD 0)
    else splitLoop text ps chunks last_pos

/-- The trailing-text handling of `split_text_by_phases` (lines 222–237):
`r` is the loop result `(chunks, last_pos)`.  If `text[last_pos:]` is
non-empty its stripped form is appended as a final chunk when size-valid and
otherwise merged into the previous chunk — a no-op when there is no previous
chunk (`elif chunks:`). -/
def splitFinalStep (text : List Char) (valid_phases : List EmotionalPhase)
    (r : List Chunk × Nat) : List Chunk :=
  if r.2 < text.length then
    if is_valid_chunk (strip (text.drop r.2)) then
      r.1 ++ [(strip (text.drop r.2),
        ⟨((valid_phases.getLast?).map (·.emotions_after)).getD "neutral",
          none, none, none⟩)]
    else mergeIntoLast (strip (text.drop r.2)) r.1
  else r.1

/-- Model of `split_text_by_phases` (lines 159–237): cut `text` at the valid phase
positions, validating each candidate, then handle the trailing span —
appended as a final chunk when valid, merged into the previous chunk
otherwise (dropped when there is no previous chunk). -/
def split_text_by_phases (text : List Char) (phases : List EmotionalPhase) :
    List Chunk :=
  if phases.isEmpty then []
  else if (phases.filter (·.position_in_full_text.isSome)).isEmpty then []
  else
    splitFinalStep text (phases.filter (·.position_in_full_text.isSome))
      (splitLoop text (phases.filter (·.position_in_full_text.isSome)) [] 0)

/-! ## `services/analyze_emotions_with_gpt.py` -/

/-- One step of `_calculate_positions` (lines 77–104): empty/whitespace-only
`start_text` gets `None` (the code checks emptiness before searching, so the
empty string is *not* treated as matching at offset 0); otherwise exact search
then a 30-character fuzzy retry. -/
def calcPositionsOne (segment : List Char) (phase : EmotionalPhase) :
    EmotionalPhase :=
  let start_text := strip phase.start_text
  if start_text.isEmpty then { phase with position_in_full_text := none }
  else
    match findSub segment start_text with
    | some position => { phase with position_in_full_text := some position }
    | none =>
      match findSub segment (start_text.take 30) with
      | some position => { phase with position_in_full_text := some position }
      | none => { phase with position_in_full_text := none }

/-- Model of the Python `_calculate_positions` (lines 64–109):
reconcile every phase then stably sort by position with `None` last. -/
def calculate_positions (segment : List Char)
    (phases : List EmotionalPhase) : List EmotionalPhase :=
  stableSortBy
    (fun p q => posLe p.position_in_full_text q.position_in_full_text)
    (phases.map (calcPositionsOne segment))

/-- Observable outcome of one call to `analyze_emotions_with_gpt`: the result
phases, how many attempts were consumed, and the `time.sleep` durations
executed between attempts (in seconds), in order. -/
structure AnalyzeTrace where
  emotional_phases : List EmotionalPhase
  attempts : Nat
  sleeps : List Nat
deriving Repr, DecidableEq

/-- The `for attempt in range(3)` retry loop of `analyze_emotions_with_gpt`
(lines 38–61).  `detector attempt` is the external LLM capability at that
attempt: `some phases` models a successful structured response, `none` models
any raised exception (transport error or malformed output).  On success the
positions are reconciled and the phases filtered by
`SIGNIFICANCE_THRESHOLD`; on failure the code sleeps 1 second (attempts 0 and
1 only) and retries; after three failures it returns an empty phase list. -/
def analyzeLoop (detector : Nat → Option (List EmotionalPhase))
    (segment : List Char) : Nat → Nat → List Nat → AnalyzeTrace
  | attempt, 0, sleeps => ⟨[], attempt, sleeps⟩
  | attempt, fuel + 1, sleeps =>
    match detector attempt with
    | some phases =>
      let phases_with_positions := calculate_positions segment phases
      let filtered_phases := phases_with_positions.filter
        (fun p => SIGNIFICANCE_THRESHOLD ≤ p.significance)
      ⟨filtered_phases, attempt + 1, sleeps⟩
    | none =>
      analyzeLoop detector segment (attempt + 1) fuel
        (if attempt < 2 then sleeps ++ [1] else sleeps)

/-- Model of `analyze_emotions_with_gpt` (lines 31–61), as a total function of the
detector capability: it never raises.  The second `Nat` argument of
`analyzeLoop` counts the iterations of `range(3)` still to run. -/
def analyze_emotions_with_gpt (detector : Nat → Option (List EmotionalPhase))
    (segment : List Char) : AnalyzeTrace :=
  analyzeLoop detector segment 0 3 []

/-! ## `services/split_text.py` -/

/-- The `while current_pos < total_length` loop of
`split_text_into_processing_segments` (lines 81–105), producing
`(start, end)` index pairs.  `boundary pos initial_end` is the oracle for
`_find_sentence_boundary` (which calls the external NLTK tokenizer); the
loop's advance guarantee must hold whatever it returns.  The next position is
`max(current_pos + 1, chunk_end - overlap)` (line 105). -/
def segLoop (boundary : Nat → Nat → Nat) (total_length maxS ov : Nat)
    (current_pos : Nat) : List (Nat × Nat) :=
  if h : current_pos < total_length then
    let chunk_end0 := min (current_pos + maxS) total_length
    let chunk_end :=
      if chunk_end0 < total_length then boundary current_pos chunk_end0
      else chunk_end0
    if chunk_end = total_length then [(current_pos, chunk_end)]
    else
      (current_pos, chunk_end) ::
        segLoop boundary total_length maxS ov
          (max (current_pos + 1) (chunk_end - ov))
  else []
termination_by total_length - current_pos
decreasing_by
  have : current_pos + 1 ≤ max (current_pos + 1) (chunk_end - ov) :=
    le_max_left _ _
  omega

/-- Model of `split_text_into_processing_segments` (lines 67–107): short texts give a
single window at offset 0; otherwise the sliding-window loop runs, and each
yielded window is `(text[pos:chunk_end], pos)`. -/
def split_text_into_processing_segments (boundary : Nat → Nat → Nat)
    (maxS ov : Nat) (text : List Char) : List (List Char × Nat) :=
  if text.length ≤ maxS then [(text, 0)]
  else
    (segLoop boundary text.length maxS ov 0).map
      (fun se => ((text.drop se.1).take (se.2 - se.1), se.1))

/-! ## `services/find_turning_points_in_text.py` -/

/-- A point in the `points` list of `find_turning_points_in_text`: a phase
dict whose `position_in_full_text` has been overwritten with
`segment_start + rel`, where `rel` is `-1` when the anchor is not found
(Python `str.find`), hence an `Int`. -/
structure TurningPoint where
  start_text : List Char
  emotions_before : String
  emotions_after : String
  significance : Nat
  explanation : String
  pos : Int
deriving Repr, DecidableEq

/-- Lines 19–32: iterate the segments (numbered from 1) and, for each phase
returned by the per-segment analysis capability, compute
`rel = segment.find(start_text[:100]) if snippet else 0` (`-1` when absent)
and record `segment_start + rel`. -/
def collectPoints (boundary : Nat → Nat → Nat)
    (analyses : Nat → List EmotionalPhase) (text : List Char) :
    List TurningPoint :=
  ((split_text_into_processing_segments boundary MAX_SEGMENT_SIZE OVERLAP_SIZE
      text).enum.map
    (fun iw =>
      (analyses (iw.1 + 1)).map (fun p =>
        let snippet := p.start_text.take 100
        let rel : Int :=
          if snippet.isEmpty then 0
          else
            match findSub iw.2.1 snippet with
            | some r => (r : Int)
            | none => -1
        ⟨p.start_text, p.emotions_before, p.emotions_after, p.significance,
          p.explanation, (iw.2.2 : Int) + rel⟩))).flatten

/-- Lines 40–46: the minimum-gap / maximum-count filter.  `last` is
`last_position` (`none` models the initial `-float("inf")`); a point is
retained when it is at least `gap` beyond the last retained point and fewer
than 20 points have been retained; once 20 are retained the loop breaks. -/
def gapOk (gap : Int) (p : TurningPoint) : Option Int → Bool
  | none => true
  | some l => decide (gap ≤ p.pos - l)

def gapFilter (gap : Int) : List TurningPoint → List TurningPoint →
    Option Int → List TurningPoint
  | [], filtered, _ => filtered
  | p :: rest, filtered, last =>
    if gapOk gap p last && decide (filtered.length < 20) then
      gapFilter gap rest (filtered ++ [p]) (some p.pos)
    else if 20 ≤ filtered.length then filtered
    else gapFilter gap rest filtered last

/-- Model of `find_turning_points_in_text` (lines 14–49): collect the points of every
segment, stably sort them by position, then apply the gap filter with
`min_gap = max(300, len(text) // 100)` and `max_points = 20`. -/
def find_turning_points_in_text (boundary : Nat → Nat → Nat)
    (analyses : Nat → List EmotionalPhase) (text : List Char) :
    List TurningPoint :=
  let points := collectPoints boundary analyses text
  let sorted := stableSortBy (fun p q => decide (p.pos ≤ q.pos)) points
  gapFilter ((max 300 (text.length / 100) : Nat) : Int) sorted [] none

/-! ## `services/langgraph_workflow.py`, `_create_final_chunks_node` -/

/-- The inner `for phase in valid_phases` loop (lines 205–237).  It differs
from `splitLoop`: an undersized candidate defers (does not advance
`last_pos`), while an oversized candidate is *skipped and `last_pos`
advances* (its text is dropped). -/
def lgLoop (chunk_text : List Char) :
    List EmotionalPhase → List Chunk → Nat → List Chunk × Nat
  | [], temp_chunks, last_pos => (temp_chunks, last_pos)
  | p :: ps, temp_chunks, last_pos =>
    let phase_pos := p.position_in_full_text.getD 0
    if phase_pos ≤ last_pos then lgLoop chunk_text ps temp_chunks last_pos
    else
      let sub := strip ((chunk_text.drop last_pos).take (phase_pos - last_pos))
      if sub.length < MIN_CHUNK_SIZE then
        lgLoop chunk_text ps temp_chunks last_pos
      else if MAX_CHUNK_SIZE < sub.length then
        lgLoop chunk_text ps temp_chunks phase_pos
      else
        lgLoop chunk_text ps
          (temp_chunks ++ [(sub,
            ⟨p.emotions_before, some p.emotions_after, some p.significance,
              some p.explanation⟩)]) phase_pos

/-- The per-analysis body of `_create_final_chunks_node` (lines 174–260) for
one successfully analysed physical chunk.  With no phases (or none with a
valid position) the whole text becomes a single `"neutral"` chunk — but only
when `MIN_CHUNK_SIZE ≤ len ≤ MAX_CHUNK_SIZE`; otherwise the text is skipped.
The trailing span is appended when size-valid, dropped when oversized, and
merged into the previous chunk when undersized (if one exists). -/
def createFinalChunksForText (chunk_text : List Char)
    (emotional_phases : List EmotionalPhase) : List Chunk :=
  let wholeChunk : List Chunk :=
    if MIN_CHUNK_SIZE ≤ chunk_text.length ∧
        chunk_text.length ≤ MAX_CHUNK_SIZE then
      [(chunk_text, ⟨"neutral", none, none, none⟩)]
    else []
  if emotional_phases.isEmpty then wholeChunk
  else
    let valid_phases := emotional_phases.filter (·.position_in_full_text.isSome)
    if valid_phases.isEmpty then wholeChunk
    else
      let r := lgLoop chunk_text valid_phases [] 0
      if r.2 < chunk_text.length then
        let final_text := strip (chunk_text.drop r.2)
        if MIN_CHUNK_SIZE ≤ final_text.length then
          if final_text.length ≤ MAX_CHUNK_SIZE then
            r.1 ++ [(final_text,
              ⟨((valid_phases.getLast?).map (·.emotions_after)).getD "neutral",
                none, none, none⟩)]
          else r.1
        else mergeIntoLast final_text r.1
      else r.1

/-! ## `services/async_music_generation.py` -/

/-- The externally observable behaviour of everything `process_single_chunk`
does for one chunk index.  `paths` is a successful
`musicgen_service.generate_music_samples` return value; `genError` is any
exception raised inside the inner `try` (lines 38–51), including the
`RuntimeError` for an empty path list; `hardError` is any exception raised in
the rest of the body (prompt building, dummy-file creation, the text-file
write), caught by the outer `try` (line 86). -/
inductive MusicGenOutcome where
  | paths (saved : List String)
  | genError (msg : String)
  | hardError (msg : String)
deriving Repr, DecidableEq

def MusicGenOutcome.isHardError : MusicGenOutcome → Bool
  | .hardError _ => true
  | _ => false

/-- The per-chunk result dict built by `process_single_chunk`. -/
structure ChunkArtifact where
  index : Nat
  fullText : List Char
  emotion : String
  audioUrl : String
  success : Bool
  errorMsg : Option String
deriving Repr, DecidableEq

def OUTPUT_DIR : String := "gen_musics"

/-- The dummy silent-audio path written when MusicGen fails (lines 54–64). -/
def dummyAudioUrl (book_relative_dir : String) (chunk_index : Nat) : String :=
  "/" ++ OUTPUT_DIR ++ "/" ++ book_relative_dir ++ "/chunk_" ++
    toString chunk_index ++ "/regional_output_1.wav"

/-- Model of `process_single_chunk` (lines 18–94).  A MusicGen failure (or an empty
path list) is masked by a silent dummy file and still reports
`success=True`; only an exception outside that fallback produces the
`success=False` dict. -/
def process_single_chunk (capability : Nat → MusicGenOutcome)
    (book_relative_dir : String) (chunk : Chunk) (chunk_index : Nat) :
    ChunkArtifact :=
  match capability chunk_index with
  | .hardError msg => ⟨chunk_index, [], "", "", false, some msg⟩
  | .genError _ =>
    ⟨chunk_index, chunk.1, chunk.2.emotions,
      dummyAudioUrl book_relative_dir chunk_index, true, none⟩
  | .paths [] =>
    ⟨chunk_index, chunk.1, chunk.2.emotions,
      dummyAudioUrl book_relative_dir chunk_index, true, none⟩
  | .paths (p :: _) =>
    ⟨chunk_index, chunk.1, chunk.2.emotions, "/" ++ p, true, none⟩

/-- Model of `process_all_chunks_async` (lines 97–142): every chunk is processed
(indices 1-based, results gathered in input order), then the final
aggregation keeps only the results with `success=True` — `successful_chunks`
is what the function returns (line 142). -/
def process_all_chunks_async (capability : Nat → MusicGenOutcome)
    (book_relative_dir : String) (all_chunks : List Chunk) :
    List ChunkArtifact :=
  ((all_chunks.enum.map
    (fun ic => process_single_chunk capability book_relative_dir ic.2
      (ic.1 + 1))).filter (fun r => r.success))

/-! ## `routers/musicgen_upload_router.py`, `generate_music_long` -/

/-- Model of `get_output_path` (lines 245–246). -/
def get_output_path (user_id book_dir : String) (chapter : Nat) : String :=
  OUTPUT_DIR ++ "/" ++ user_id ++ "/" ++ book_dir ++ "/ch" ++
    toString chapter ++ ".wav"

/-- Possible responses of the `generate_music_long` endpoint. -/
inductive LongGenResult where
  /-- The endpoint raised `NameError: name 'logger' is not defined`:
  the module never imports or defines `logger`, yet line 262 calls
  `logger.info(...)` — this models that exception. -/
  | nameError
  /-- The cached `FileResponse(out_wav)` of line 263 (never reached). -/
  | fileResponse (path : String)
  /-- Whatever the rest of the endpoint body (steps 1–7) produces. -/
  | pipelineResult (r : String)
deriving Repr, DecidableEq

/-- The idempotency gate of `generate_music_long` (lines 258–263) together
with a flag recording whether the generation pipeline (steps 1–7, which
invoke the generation capability) was entered.  `fs path` models
`os.path.exists(path)`; `pipeline` abstracts the body below the gate.  When
the output file already exists the code evaluates `logger.info(...)` before
the `return FileResponse(out_wav)` — and `logger` is an undefined name in
this module, so a `NameError` is raised instead of returning the cached
file. -/
def generate_music_long (fs : String → Bool)
    (pipeline : Unit → String) (user_id safe_title : String) (page : Nat) :
    LongGenResult × Bool :=
  let out_wav := get_output_path user_id safe_title page
  if fs out_wav then (LongGenResult.nameError, false)
  else (LongGenResult.pipelineResult (pipeline ()), true)

/-! ## Concrete inputs used by counterexamples and witnesses -/

/-- A phase with the given anchor, explanation and reconciled position
(the remaining fields are irrelevant to the statements using it). -/
def mkPhase (anchor : List Char) (expl : String) (pos : Option Nat) :
    EmotionalPhase :=
  ⟨anchor, "calm", "tense", 3, expl, pos⟩

/-- A phase whose reconciliation failed: `position_in_full_text = None`. -/
def phNull : EmotionalPhase := mkPhase ['q'] "null-position phase" none

/-- A reconciled phase at offset 20. -/
def phPos20 : EmotionalPhase := mkPhase ['x'] "phase at 20" (some 20)

/-- A reconciled phase at offset 60. -/
def phPos60 : EmotionalPhase := mkPhase ['x'] "phase at 60" (some 60)

/-- Two distinct phases sharing position 5, plus a null-position phase:
the mixed list used against the strict-increase part of the sort claim. -/
def phTie1 : EmotionalPhase := mkPhase ['x'] "first at 5" (some 5)

def phTie2 : EmotionalPhase := mkPhase ['y'] "second at 5" (some 5)

/-- A phase whose anchor is whitespace-only. -/
def phWsAnchor : EmotionalPhase := mkPhase [' ', '\t'] "blank anchor" none

/-! ## Helper lemmas: whitespace erasure -/

lemma stripAll_append (a b : List Char) :
    stripAll (a ++ b) = stripAll a ++ stripAll b := by
  simp [stripAll]

lemma stripAll_dropWhile (l : List Char) :
    stripAll (l.dropWhile isWs) = stripAll l := by
  induction l with
  | nil => rfl
  | cons c t ih =>
    by_cases h : isWs c
    · simp [List.dropWhile, h, stripAll, List.filter] at *
      exact ih
    · simp [List.dropWhile, h]

lemma stripAll_reverse (l : List Char) :
    stripAll l.reverse = (stripAll l).reverse := by
  simp [stripAll]

lemma stripAll_strip (s : List Char) : stripAll (strip s) = stripAll s := by
  unfold strip
  rw [stripAll_reverse, stripAll_dropWhile, stripAll_reverse,
    List.reverse_reverse, stripAll_dropWhile]

lemma stripAll_space : stripAll [' '] = [] := rfl

lemma stripAll_cons_space (t : List Char) :
    stripAll (' ' :: t) = stripAll t := by
  have h : (!isWs ' ') = false := by decide
  simp [stripAll, List.filter_cons, h]

lemma joinTexts_append (a b : List Chunk) :
    joinTexts (a ++ b) = joinTexts a ++ joinTexts b := by
  simp [joinTexts]

/-- Merging text into the last chunk only inserts one space: modulo
whitespace the concatenation gains exactly the merged text (nothing when the
list is empty, mirroring the `elif chunks:` guard). -/
lemma stripAll_joinTexts_mergeIntoLast (t : List Char) (cs : List Chunk)
    (h : cs ≠ []) :
    stripAll (joinTexts (mergeIntoLast t cs)) =
      stripAll (joinTexts cs) ++ stripAll t := by
  induction cs with
  | nil => exact absurd rfl h
  | cons c rest ih =>
    cases rest with
    | nil =>
      obtain ⟨ct, cctx⟩ := c
      simp [mergeIntoLast, joinTexts, stripAll_append, stripAll_cons_space]
    | cons c2 rest2 =>
      have hne : (c2 :: rest2 : List Chunk) ≠ [] := by simp
      calc stripAll (joinTexts (mergeIntoLast t (c :: c2 :: rest2)))
          = stripAll (joinTexts ([c] ++ mergeIntoLast t (c2 :: rest2))) := by
            simp [mergeIntoLast, joinTexts]
        _ = stripAll (joinTexts [c]) ++
              stripAll (joinTexts (mergeIntoLast t (c2 :: rest2))) := by
            rw [joinTexts_append, stripAll_append]
        _ = stripAll (joinTexts [c]) ++
              (stripAll (joinTexts (c2 :: rest2)) ++ stripAll t) := by
            rw [ih hne]
        _ = stripAll (joinTexts (c :: c2 :: rest2)) ++ stripAll t := by
            simp [joinTexts, stripAll_append]

/-! ## Helper lemmas: the stable insertion sort -/

lemma mem_insortBy (le : α → α → Bool) (a x : α) (l : List α) :
    x ∈ insortBy le a l ↔ x = a ∨ x ∈ l := by
  induction l with
  | nil => simp [insortBy]
  | cons b t ih =>
    by_cases h : le a b
    · simp [insortBy, h]
    · simp only [insortBy, h, if_neg, Bool.false_eq_true, if_false,
        List.mem_cons, ih]
      tauto

lemma pairwise_insortBy (le : α → α → Bool)
    (htot : ∀ a b, le a b = true ∨ le b a = true)
    (htrans : ∀ a b c, le a b = true → le b c = true → le a c = true)
    (a : α) (l : List α) (hl : l.Pairwise (fun x y => le x y = true)) :
    (insortBy le a l).Pairwise (fun x y => le x y = true) := by
  induction l with
  | nil => simp [insortBy]
  | cons b t ih =>
    rcases List.pairwise_cons.mp hl with ⟨hb, ht⟩
    by_cases h : le a b
    · simp only [insortBy, h, if_true]
      refine List.pairwise_cons.mpr ⟨?_, hl⟩
      intro x hx
      rcases List.mem_cons.mp hx with rfl | hx
      · exact h
      · exact htrans a b x h (hb x hx)
    · simp only [insortBy, h, Bool.false_eq_true, if_false]
      refine List.pairwise_cons.mpr ⟨?_, ih ht⟩
      intro x hx
      rcases (mem_insortBy le a x t).mp hx with rfl | hx
      · rcases htot x b with hab | hba
        · exact absurd hab h
        · exact hba
      · exact hb x hx

lemma pairwise_stableSortBy (le : α → α → Bool)
    (htot : ∀ a b, le a b = true ∨ le b a = true)
    (htrans : ∀ a b c, le a b = true → le b c = true → le a c = true)
    (l : List α) :
    (stableSortBy le l).Pairwise (fun x y => le x y = true) := by
  induction l with
  | nil => simp [stableSortBy]
  | cons a t ih => exact pairwise_insortBy le htot htrans a _ ih

/-- Stability through insertion, phrased with a key: the subsequence of
elements carrying any fixed key value is unchanged (elements passed over by
the insertion all have keys strictly below the inserted key, hence different
from it). -/
lemma filter_key_insortBy {β : Type} [DecidableEq β] (key : α → β)
    (kle : β → β → Bool) (hrefl : ∀ x, kle x x = true) (a : α) (k : β)
    (l : List α) :
    (insortBy (fun x y => kle (key x) (key y)) a l).filter
        (fun x => decide (key x = k)) =
      if key a = k then a :: l.filter (fun x => decide (key x = k))
      else l.filter (fun x => decide (key x = k)) := by
  induction l with
  | nil =>
    by_cases h : key a = k <;> simp [insortBy, List.filter_cons, h]
  | cons b t ih =>
    by_cases h : kle (key a) (key b)
    · rw [show insortBy (fun x y => kle (key x) (key y)) a (b :: t) =
          a :: b :: t by simp [insortBy, h]]
      by_cases hk : key a = k <;> by_cases hbk : key b = k <;>
        simp [List.filter_cons, hk, hbk]
    · have hne : key b ≠ key a := by
        intro he
        exact h (he ▸ hrefl (key b))
      rw [show insortBy (fun x y => kle (key x) (key y)) a (b :: t) =
          b :: insortBy (fun x y => kle (key x) (key y)) a t by
            simp [insortBy, h]]
      rw [List.filter_cons, ih]
      by_cases hbk : key b = k
      · have hak : ¬ key a = k := fun he => hne (hbk.trans he.symm)
        simp [List.filter_cons, hbk, hak]
      · by_cases hak : key a = k <;> simp [List.filter_cons, hbk, hak]

/-- Stability of the whole sort: for every key value, the elements carrying
it appear in the output exactly as they do in the input. -/
lemma filter_key_stableSortBy {β : Type} [DecidableEq β] (key : α → β)
    (kle : β → β → Bool) (hrefl : ∀ x, kle x x = true) (k : β)
    (l : List α) :
    (stableSortBy (fun x y => kle (key x) (key y)) l).filter
        (fun x => decide (key x = k)) =
      l.filter (fun x => decide (key x = k)) := by
  induction l with
  | nil => rfl
  | cons a t ih =>
    by_cases h : key a = k <;>
      simp [stableSortBy, filter_key_insortBy key kle hrefl, h,
        List.filter_cons, ih]

lemma posLe_refl (x : Option Nat) : posLe x x = true := by
  cases x <;> simp [posLe]

lemma posLe_total (x y : Option Nat) : posLe x y = true ∨ posLe y x = true := by
  cases x <;> cases y <;> simp [posLe] <;> omega

lemma posLe_trans (x y z : Option Nat) (h1 : posLe x y = true)
    (h2 : posLe y z = true) : posLe x z = true := by
  cases x <;> cases y <;> cases z <;> simp [posLe] at * <;> omega

/-- Phases with `position_in_full_text = None` never influence
`split_text_by_phases`: the function first filters them away (line 189), and
the empty-input early returns coincide. -/
lemma split_text_by_phases_filter (text : List Char)
    (phases : List EmotionalPhase) :
    split_text_by_phases text phases =
      split_text_by_phases text
        (phases.filter (·.position_in_full_text.isSome)) := by
  by_cases h1 : phases = []
  · subst h1; rfl
  · have e1 : phases.isEmpty = false := by
      simpa [List.isEmpty_iff] using h1
    by_cases h2 : phases.filter (·.position_in_full_text.isSome) = []
    · unfold split_text_by_phases
      rw [h2]
      simp [e1]
    · have e2 : (phases.filter
          (·.position_in_full_text.isSome)).isEmpty = false := by
        simpa [List.isEmpty_iff] using h2
      have e3 : (phases.filter (·.position_in_full_text.isSome)).filter
            (·.position_in_full_text.isSome) =
          phases.filter (·.position_in_full_text.isSome) := by
        rw [List.filter_filter]
        simp
      unfold split_text_by_phases
      rw [e1, e2, e3, e2]




/-! ## Claim C2 -/

/-- C2, counterexample: for a non-empty 3000-character input and an empty
phase list, `split_text_by_phases` (the chunk assembler named by the claim)
returns the empty list — not one whole-text chunk tagged `"neutral"` as the
claim states (lines 182–183 return `[]` when `phases` is empty). -/
theorem claim_C2_counterexample :
    split_text_by_phases (List.replicate 3000 'a') [] = [] ∧
    List.replicate 3000 'a' ≠ ([] : List Char) := by
  constructor
  · rfl
  · intro h
    have hl := congrArg List.length h
    rw [List.length_replicate] at hl
    exact absurd hl (by norm_num)

/-- C2 (amended): the single-whole-chunk `"neutral"` fallback lives one level
up, in the workflow's `_create_final_chunks_node` (lines 177–187), and only
fires when `MIN_CHUNK_SIZE ≤ len(text) ≤ MAX_CHUNK_SIZE`; `split_text_by_phases`
itself returns `[]` on an empty phase list. -/
theorem claim_C2 (text : List Char) (h1 : MIN_CHUNK_SIZE ≤ text.length)
    (h2 : text.length ≤ MAX_CHUNK_SIZE) :
    createFinalChunksForText text [] =
      [(text, ⟨"neutral", none, none, none⟩)] := by
  have e : createFinalChunksForText text [] =
      if MIN_CHUNK_SIZE ≤ text.length ∧ text.length ≤ MAX_CHUNK_SIZE then
        [(text, ⟨"neutral", none, none, none⟩)] else [] := rfl
  rw [e, if_pos ⟨h1, h2⟩]

/-- C2, witness: the amended statement at the 3000-character input of the
spec's scenario. -/
theorem claim_C2_witness :
    createFinalChunksForText (List.replicate 3000 'a') [] =
      [(List.replicate 3000 'a', ⟨"neutral", none, none, none⟩)] :=
  claim_C2 _ (by rw [List.length_replicate]; norm_num [MIN_CHUNK_SIZE])
    (by rw [List.length_replicate]; norm_num [MAX_CHUNK_SIZE])

/-! ## Claim C5 -/

/-- C5, counterexample: a mixed phase list with two distinct phases sharing
position 5 and one null-position phase.  After `sort_phases_by_position` the
non-null positions are `[5, 5]`: non-decreasing but *not* strictly
increasing, refuting the strict-increase part of the claim. -/
theorem claim_C5_counterexample :
    (sort_phases_by_position [phTie1, phTie2, phNull]).filterMap
        (·.position_in_full_text) = [5, 5] ∧
    ¬ ([5, 5] : List Nat).Chain' (· < ·) := by
  constructor
  · rfl
  · intro h
    have := (List.chain'_cons.mp h).1
    omega

/-- C5 (amended): for every phase list, `sort_phases_by_position` is sorted
under the `None = +inf` key order, it is stable (for each key value the
carrying elements appear exactly as in the input), the non-null positions
appear in *non-decreasing* (not necessarily strictly increasing) order, and
every null-position phase sorts behind every non-null one. -/
theorem claim_C5 (phases : List EmotionalPhase) :
    (sort_phases_by_position phases).Pairwise
      (fun p q => posLe p.position_in_full_text q.position_in_full_text
        = true) ∧
    (∀ k : Option Nat,
      (sort_phases_by_position phases).filter
          (fun p => decide (p.position_in_full_text = k)) =
        phases.filter (fun p => decide (p.position_in_full_text = k))) ∧
    ((sort_phases_by_position phases).filterMap
      (·.position_in_full_text)).Chain' (· ≤ ·) ∧
    (sort_phases_by_position phases).Pairwise
      (fun p q => p.position_in_full_text = none →
        q.position_in_full_text = none) := by
  have hp := pairwise_stableSortBy
    (fun p q : EmotionalPhase =>
      posLe p.position_in_full_text q.position_in_full_text)
    (fun a b => posLe_total _ _)
    (fun a b c h1 h2 => posLe_trans _ _ _ h1 h2) phases
  refine ⟨hp, ?_, ?_, ?_⟩
  · intro k
    exact filter_key_stableSortBy (fun p => p.position_in_full_text) posLe
      posLe_refl k phases
  · refine (List.Pairwise.filterMap (·.position_in_full_text) ?_ hp).chain'
    intro a b hab x hx y hy
    have hx' : a.position_in_full_text = some x := hx
    have hy' : b.position_in_full_text = some y := hy
    rw [hx', hy'] at hab
    simpa [posLe] using hab
  · refine hp.imp ?_
    intro a b hab hnone
    rw [hnone] at hab
    cases hb : b.position_in_full_text with
    | none => rfl
    | some v => rw [hb] at hab; simp [posLe] at hab

/-! ## Claim C6 -/

/-- C6: the claim is right and the code is wrong.  When the output file for
`(user_id, book_title, page)` already exists, the idempotency gate of
`generate_music_long` skips the generation pipeline (second component
`false`), but it does **not** return the cached `FileResponse`: line 262
evaluates `logger.info(...)` and `logger` is an undefined name in
`musicgen_upload_router.py`, so the endpoint raises
`NameError: name 'logger' is not defined` instead.  The theorem evaluates
the model at such a failing input, for any pipeline body. -/
theorem claim_C6 :
    generate_music_long (fun _ => true) (fun _ => "pipeline-was-run")
        "user1" "mybook" 1 =
      (LongGenResult.nameError, false) := rfl

/-! ## Claim C7 -/

/-- C7, counterexample: for an always-failing detector the backoff delays
executed by `analyze_emotions_with_gpt` are `time.sleep(1)` twice — a
constant sequence, not an increasing one (line 58 sleeps 1 second on every
retry), refuting the "increasing backoff" part of the claim. -/
theorem claim_C7_counterexample :
    (analyze_emotions_with_gpt (fun _ => none) ['a']).sleeps = [1, 1] ∧
    ¬ (analyze_emotions_with_gpt (fun _ => none) ['a']).sleeps.Chain'
        (· < ·) := by
  constructor
  · rfl
  · intro h
    rw [show (analyze_emotions_with_gpt (fun _ => none) ['a']).sleeps
        = [1, 1] from rfl] at h
    exact absurd (List.chain'_cons.mp h).1 (by omega)

/-- C7 (amended): `analyze_emotions_with_gpt` never raises (it is a total
function of the detector capability), makes at most 3 attempts, and when
every attempt fails it returns an empty phase list after exactly 3 attempts
with a **constant** 1-second delay after each of the first two failures
(not an increasing backoff). -/
theorem claim_C7 (detector : Nat → Option (List EmotionalPhase))
    (segment : List Char) :
    (analyze_emotions_with_gpt detector segment).attempts ≤ 3 ∧
    ((∀ i, i < 3 → detector i = none) →
      (analyze_emotions_with_gpt detector segment).emotional_phases = [] ∧
      (analyze_emotions_with_gpt detector segment).attempts = 3 ∧
      (analyze_emotions_with_gpt detector segment).sleeps = [1, 1]) := by
  cases h0 : detector 0 with
  | some p0 =>
    refine ⟨by simp [analyze_emotions_with_gpt, analyzeLoop, h0], ?_⟩
    intro hall
    exact absurd (hall 0 (by omega)) (by simp [h0])
  | none =>
    cases h1 : detector 1 with
    | some p1 =>
      refine ⟨by simp [analyze_emotions_with_gpt, analyzeLoop, h0, h1], ?_⟩
      intro hall
      exact absurd (hall 1 (by omega)) (by simp [h1])
    | none =>
      cases h2 : detector 2 with
      | some p2 =>
        refine ⟨by simp [analyze_emotions_with_gpt, analyzeLoop, h0, h1, h2],
          ?_⟩
        intro hall
        exact absurd (hall 2 (by omega)) (by simp [h2])
      | none =>
        refine ⟨by simp [analyze_emotions_with_gpt, analyzeLoop, h0, h1, h2],
          fun _ => ?_⟩
        refine ⟨?_, ?_, ?_⟩ <;>
          simp [analyze_emotions_with_gpt, analyzeLoop, h0, h1, h2]

/-- C7, witness: the amended statement at the always-failing detector on a
one-character window, with the hypothesis discharged. -/
theorem claim_C7_witness :
    (analyze_emotions_with_gpt (fun _ => none) ['w']).attempts ≤ 3 ∧
    ((analyze_emotions_with_gpt (fun _ => none) ['w']).emotional_phases = []
      ∧ (analyze_emotions_with_gpt (fun _ => none) ['w']).attempts = 3
      ∧ (analyze_emotions_with_gpt (fun _ => none) ['w']).sleeps = [1, 1]) :=
  ⟨(claim_C7 (fun _ => none) ['w']).1,
    (claim_C7 (fun _ => none) ['w']).2 (fun i _ => rfl)⟩

/-! ## Claim C10 -/

/-- C10: a phase whose anchor text is empty or whitespace-only is assigned a
null position by both reconcilers (`calculate_phase_position` and the
per-phase step of `_calculate_positions` guard on the stripped anchor before
searching, so the empty string is not matched at offset 0), null-position
phases sort to the tail of the reconciled list, and `split_text_by_phases`
ignores null-position phases entirely, so such a phase never creates a chunk
boundary. -/
theorem claim_C10 (segment : List Char) (phase : EmotionalPhase)
    (h : strip phase.start_text = []) :
    calculate_phase_position segment phase = none ∧
    (calcPositionsOne segment phase).position_in_full_text = none ∧
    (∀ text phases, split_text_by_phases text phases =
      split_text_by_phases text
        (phases.filter (·.position_in_full_text.isSome))) ∧
    (∀ phases, (calculate_positions segment phases).Pairwise
      (fun p q => p.position_in_full_text = none →
        q.position_in_full_text = none)) := by
  refine ⟨?_, ?_, split_text_by_phases_filter, ?_⟩
  · simp [calculate_phase_position, h]
  · simp [calcPositionsOne, h]
  · intro phases
    have hp := pairwise_stableSortBy
      (fun p q : EmotionalPhase =>
        posLe p.position_in_full_text q.position_in_full_text)
      (fun a b => posLe_total _ _)
      (fun a b c h1 h2 => posLe_trans _ _ _ h1 h2)
      (phases.map (calcPositionsOne segment))
    refine hp.imp ?_
    intro a b hab hnone
    rw [hnone] at hab
    cases hb : b.position_in_full_text with
    | none => rfl
    | some v => rw [hb] at hab; simp [posLe] at hab

/-- C10, witness: the statement at a whitespace-only anchor in a concrete
segment. -/
theorem claim_C10_witness :
    calculate_phase_position ['a', 'b'] phWsAnchor = none ∧
    (calcPositionsOne ['a', 'b'] phWsAnchor).position_in_full_text = none ∧
    (∀ text phases, split_text_by_phases text phases =
      split_text_by_phases text
        (phases.filter (·.position_in_full_text.isSome))) ∧
    (∀ phases, (calculate_positions ['a', 'b'] phases).Pairwise
      (fun p q => p.position_in_full_text = none →
        q.position_in_full_text = none)) :=
  claim_C10 ['a', 'b'] phWsAnchor (by decide)

/-! ## Claim C1 -/

lemma process_single_chunk_success (capability : Nat → MusicGenOutcome)
    (dir : String) (c : Chunk) (i : Nat) :
    (process_single_chunk capability dir c i).success =
      !(capability i).isHardError := by
  unfold process_single_chunk
  cases capability i with
  | paths saved => cases saved <;> rfl
  | genError msg => rfl
  | hardError msg => rfl

lemma process_single_chunk_index (capability : Nat → MusicGenOutcome)
    (dir : String) (c : Chunk) (i : Nat) :
    (process_single_chunk capability dir c i).index = i := by
  unfold process_single_chunk
  cases capability i with
  | paths saved => cases saved <;> rfl
  | genError msg => rfl
  | hardError msg => rfl

/-- The surviving indices of the batch, for an arbitrary enumeration
start: exactly the 1-based indices whose outcome is not a hard error, in
order. -/
lemma process_all_go (capability : Nat → MusicGenOutcome) (dir : String) :
    ∀ (l : List Chunk) (n : Nat),
    (((List.enumFrom n l).map
        (fun ic => process_single_chunk capability dir ic.2 (ic.1 + 1))).filter
      (fun r => r.success)).map (·.index) =
    (List.range' (n + 1) l.length).filter
      (fun i => !(capability i).isHardError) := by
  intro l
  induction l with
  | nil => intro n; rfl
  | cons c t ih =>
    intro n
    rw [List.enumFrom_cons, List.map_cons, List.filter_cons,
      List.length_cons, List.range'_succ, List.filter_cons,
      process_single_chunk_success]
    by_cases h : (capability (n + 1)).isHardError
    · rw [show (!(capability (n + 1)).isHardError) = false by simp [h]]
      simp only [Bool.false_eq_true, if_false]
      exact ih (n + 1)
    · rw [show (!(capability (n + 1)).isHardError) = true by simp [h]]
      simp only [if_true, List.map_cons, process_single_chunk_index]
      rw [ih (n + 1)]

/-- C1, counterexample: one input chunk whose processing raises outside the
MusicGen fallback (modelled by `hardError`).  `process_all_chunks_async`
returns the empty list — not one artifact tagged `success=false` — because
line 142 returns only `successful_chunks`; the failure is merely counted. -/
theorem claim_C1_counterexample :
    (process_all_chunks_async (fun _ => MusicGenOutcome.hardError "boom")
        "book" [(['h', 'i'], ⟨"calm", none, none, none⟩)]).length = 0 ∧
    ([(['h', 'i'], ⟨"calm", none, none, none⟩)] : List Chunk).length = 1 := by
  exact ⟨rfl, rfl⟩

/-- C1 (amended): `process_all_chunks_async` returns one artifact per chunk
whose processing did **not** raise outside the generation fallback, in input
order (1-based indices), and every returned artifact is tagged
`success=true`; chunks whose processing raised are omitted from the returned
list rather than represented by `success=false` placeholders.  (A failure of
the generation capability itself is masked inside `process_single_chunk` by
a silent dummy artifact tagged `success=true`.) -/
theorem claim_C1 (capability : Nat → MusicGenOutcome) (dir : String)
    (all_chunks : List Chunk) :
    (process_all_chunks_async capability dir all_chunks).all
      (fun r => r.success) = true ∧
    (process_all_chunks_async capability dir all_chunks).map (·.index) =
      (List.range' 1 all_chunks.length).filter
        (fun i => !(capability i).isHardError) := by
  constructor
  · rw [List.all_eq_true]
    intro r hr
    unfold process_all_chunks_async at hr
    exact (List.mem_filter.mp hr).2
  · unfold process_all_chunks_async
    have h := process_all_go capability dir all_chunks 0
    simpa [List.enum] using h

/-! ## Claim C8 -/

/-- The window loop: every produced window list starts at the loop's current
position, consecutive window start positions advance by at least one, and at
most `total_length - pos` windows are produced. -/
lemma segLoop_spec (boundary : Nat → Nat → Nat) (total_length maxS ov : Nat) :
    ∀ (m pos : Nat), total_length - pos ≤ m →
    (∀ w ∈ (segLoop boundary total_length maxS ov pos).head?, w.1 = pos) ∧
    (segLoop boundary total_length maxS ov pos).Chain'
      (fun x y => x.1 + 1 ≤ y.1) ∧
    (segLoop boundary total_length maxS ov pos).length ≤ total_length - pos
    := by
  intro m
  induction m with
  | zero =>
    intro pos hm
    have hnot : ¬ pos < total_length := by omega
    rw [segLoop, dif_neg hnot]
    simp
  | succ m ih =>
    intro pos hm
    by_cases hlt : pos < total_length
    · rw [segLoop, dif_pos hlt]
      by_cases hend : (if min (pos + maxS) total_length < total_length then
          boundary pos (min (pos + maxS) total_length)
        else min (pos + maxS) total_length) = total_length
      · rw [if_pos hend]
        refine ⟨?_, ?_, ?_⟩
        · intro w hw
          simp at hw
          rw [← hw]
        · simp
        · simp
          omega
      · rw [if_neg hend]
        have hadv : pos + 1 ≤
            max (pos + 1) ((if min (pos + maxS) total_length < total_length
              then boundary pos (min (pos + maxS) total_length)
              else min (pos + maxS) total_length) - ov) := le_max_left _ _
        have hrec := ih (max (pos + 1)
          ((if min (pos + maxS) total_length < total_length
            then boundary pos (min (pos + maxS) total_length)
            else min (pos + maxS) total_length) - ov)) (by omega)
        refine ⟨?_, ?_, ?_⟩
        · intro w hw
          simp at hw
          rw [← hw]
        · rw [List.chain'_cons']
          refine ⟨?_, hrec.2.1⟩
          intro y hy
          have := hrec.1 y hy
          omega
        · rw [List.length_cons]
          have := hrec.2.2
          omega
    · rw [segLoop, dif_neg hlt]
      simp

/-- C8: for every input text, every configuration (`maxS`, `ov` — including
pathological ones such as `ov ≥ maxS`) and every behaviour of the sentence
boundary search, the splitter's consecutive window start positions satisfy
`next_pos ≥ pos + 1`, and it produces finitely many windows (at most
`len(text) + 1`): the loop terminates on every finite input. -/
theorem claim_C8 (boundary : Nat → Nat → Nat) (maxS ov : Nat)
    (text : List Char) :
    (split_text_into_processing_segments boundary maxS ov text).Chain'
      (fun w1 w2 => w1.2 + 1 ≤ w2.2) ∧
    (split_text_into_processing_segments boundary maxS ov text).length ≤
      text.length + 1 := by
  unfold split_text_into_processing_segments
  by_cases hshort : text.length ≤ maxS
  · rw [if_pos hshort]
    exact ⟨by simp, by simp⟩
  · rw [if_neg hshort]
    have h := segLoop_spec boundary text.length maxS ov (text.length - 0) 0
      (by omega)
    constructor
    · rw [List.chain'_map]
      exact h.2.1
    · rw [List.length_map]
      omega

/-! ## Claim C9 -/

/-- Invariant of the minimum-gap/maximum-count loop: if the accumulator has
at most 20 points, respects the gap, and `last` is the position of its last
element (or `none` for the initial `-inf`), the same holds of the final
result. -/
lemma gapFilter_spec (gap : Int) :
    ∀ (pts filtered : List TurningPoint) (last : Option Int),
    last = filtered.getLast?.map (·.pos) →
    filtered.length ≤ 20 →
    filtered.Chain' (fun p q => p.pos + gap ≤ q.pos) →
    (gapFilter gap pts filtered last).length ≤ 20 ∧
    (gapFilter gap pts filtered last).Chain'
      (fun p q => p.pos + gap ≤ q.pos) := by
  intro pts
  induction pts with
  | nil =>
    intro filtered last _ hlen hchain
    exact ⟨hlen, hchain⟩
  | cons p rest ih =>
    intro filtered last hlast hlen hchain
    unfold gapFilter
    by_cases hc : (gapOk gap p last && decide (filtered.length < 20)) = true
    · rw [if_pos hc]
      have hlt : filtered.length < 20 := by
        have := (Bool.and_eq_true _ _).mp hc
        exact of_decide_eq_true this.2
      refine ih (filtered ++ [p]) (some p.pos) ?_ ?_ ?_
      · rw [List.getLast?_concat]
        rfl
      · rw [List.length_append]
        simp
        omega
      · rw [List.chain'_append]
        refine ⟨hchain, List.chain'_singleton _, ?_⟩
        intro x hx y hy
        have hyp : p = y := by simpa using hy
        have hgap := (Bool.and_eq_true _ _).mp hc
        rcases hlast' : filtered.getLast? with _ | q
        · rw [hlast'] at hx
          simp at hx
        · rw [hlast'] at hx
          have hxq : q = x := by simpa using hx
          have hsome : last = some x.pos := by
            rw [hlast, hlast']
            simp [hxq]
          rw [hsome] at hgap
          have hineq := of_decide_eq_true
            (hgap.1 : gapOk gap p (some x.pos) = true)
          rw [← hyp]
          omega
    · rw [if_neg hc]
      by_cases hfull : 20 ≤ filtered.length
      · rw [if_pos hfull]
        exact ⟨hlen, hchain⟩
      · rw [if_neg hfull]
        exact ih filtered last hlast hlen hchain

/-- C9: for every input text and every behaviour of the per-segment phase
analysis and the sentence-boundary search, `find_turning_points_in_text`
retains at most 20 turning points, and any two consecutively retained points
are at least `max(300, len(text) // 100)` apart — a point closer than that
to the previously retained one is discarded. -/
theorem claim_C9 (boundary : Nat → Nat → Nat)
    (analyses : Nat → List EmotionalPhase) (text : List Char) :
    (find_turning_points_in_text boundary analyses text).length ≤ 20 ∧
    (find_turning_points_in_text boundary analyses text).Chain'
      (fun p q =>
        p.pos + ((max 300 (text.length / 100) : Nat) : Int) ≤ q.pos) := by
  unfold find_turning_points_in_text
  exact gapFilter_spec _ _ [] none rfl (by simp) (by simp)

/-! ## Claims C3 and C4 -/

/-- Loop invariant of `splitLoop`: modulo whitespace, the concatenated chunk
texts are exactly the prefix `text[:last_pos]` — skipped phases advance
nothing, emitted chunks advance `last_pos` to their cut position. -/
lemma splitLoop_inv (text : List Char) :
    ∀ (ps : List EmotionalPhase) (cs : List Chunk) (lp : Nat),
    stripAll (joinTexts cs) = stripAll (text.take lp) →
    stripAll (joinTexts (splitLoop text ps cs lp).1) =
      stripAll (text.take (splitLoop text ps cs lp).2) := by
  intro ps
  induction ps with
  | nil => intro cs lp h; exact h
  | cons p ps ih =>
    intro cs lp h
    unfold splitLoop
    by_cases h1 : p.position_in_full_text.getD 0 ≤ lp
    · rw [if_pos h1]
      exact ih cs lp h
    · rw [if_neg h1]
      by_cases h2 : is_valid_chunk (strip ((text.drop lp).take
          (p.position_in_full_text.getD 0 - lp))) = true
      · rw [if_pos h2]
        refine ih _ _ ?_
        rw [joinTexts_append, stripAll_append, h]
        have e1 : joinTexts [(strip ((text.drop lp).take
            (p.position_in_full_text.getD 0 - lp)),
            ⟨p.emotions_before, some p.emotions_after, some p.significance,
              some p.explanation⟩)] =
            strip ((text.drop lp).take
              (p.position_in_full_text.getD 0 - lp)) := by
          simp [joinTexts]
        rw [e1, stripAll_strip]
        have e2 : text.take (p.position_in_full_text.getD 0) =
            text.take lp ++
              (text.drop lp).take (p.position_in_full_text.getD 0 - lp) := by
          rw [← List.take_add]
          congr 1
          omega
        rw [e2, stripAll_append]
      · rw [if_neg h2]
        exact ih cs lp h

/-- The trailing-text step preserves full coverage unless it returns the
empty list: whatever was accumulated covers `text[:last_pos]` and the
trailing span `text[last_pos:]` is appended or merged (never dropped while a
previous chunk exists). -/
lemma splitFinalStep_coverage (text : List Char)
    (valid_phases : List EmotionalPhase) (r : List Chunk × Nat)
    (hinv : stripAll (joinTexts r.1) = stripAll (text.take r.2))
    (hne : splitFinalStep text valid_phases r ≠ []) :
    stripAll (joinTexts (splitFinalStep text valid_phases r)) =
      stripAll text := by
  unfold splitFinalStep at *
  by_cases hlt : r.2 < text.length
  · rw [if_pos hlt] at *
    by_cases hv : is_valid_chunk (strip (text.drop r.2)) = true
    · rw [if_pos hv]
      rw [joinTexts_append, stripAll_append, hinv]
      have e1 : joinTexts [(strip (text.drop r.2),
          ⟨((valid_phases.getLast?).map (·.emotions_after)).getD "neutral",
            none, none, none⟩)] = strip (text.drop r.2) := by
        simp [joinTexts]
      rw [e1, stripAll_strip, ← stripAll_append, List.take_append_drop]
    · rw [if_neg hv] at *
      rcases hcs : r.1 with _ | ⟨c, rest⟩
      · rw [hcs] at hne
        exact absurd rfl hne
      · rw [hcs] at hinv
        rw [stripAll_joinTexts_mergeIntoLast _ _
          (by simp : (c :: rest : List Chunk) ≠ [])]
        rw [hinv, stripAll_strip, ← stripAll_append, List.take_append_drop]
  · rw [if_neg hlt] at *
    rw [hinv, List.take_of_length_le (by omega)]

/-- Coverage of the assembler whenever it returns at least one chunk. -/
lemma split_coverage_aux (text : List Char) (phases : List EmotionalPhase)
    (h : split_text_by_phases text phases ≠ []) :
    stripAll (joinTexts (split_text_by_phases text phases)) =
      stripAll text := by
  unfold split_text_by_phases at *
  by_cases h1 : phases.isEmpty
  · rw [if_pos h1] at h
    exact absurd rfl h
  · rw [if_neg h1] at *
    by_cases h2 : (phases.filter (·.position_in_full_text.isSome)).isEmpty
    · rw [if_pos h2] at h
      exact absurd rfl h
    · rw [if_neg h2] at *
      exact splitFinalStep_coverage text _ _
        (splitLoop_inv text _ [] 0 rfl) h

/-- C3, counterexample: a 100-character input with one phase whose position
reconciliation failed (`position_in_full_text = None`).  The assembler
filters the phase away, hits the `if not valid_phases: return []` branch and
returns no chunks at all: the concatenation (empty) does not reconstruct the
input even modulo whitespace — the entire interior span is absent. -/
theorem claim_C3_counterexample :
    stripAll (joinTexts (split_text_by_phases (List.replicate 100 'b')
        [phNull])) ≠ stripAll (List.replicate 100 'b') := by
  intro h
  rw [show split_text_by_phases (List.replicate 100 'b') [phNull] = []
    from rfl] at h
  have hl := congrArg List.length h
  rw [show stripAll (joinTexts ([] : List Chunk)) = [] from rfl] at hl
  rw [show stripAll (List.replicate 100 'b') = List.replicate 100 'b'
    from rfl] at hl
  rw [List.length_replicate] at hl
  exact absurd hl.symm (by norm_num)

/-- C3 (amended): whenever the assembler returns at least one chunk, the
chunk texts concatenated in output order reconstruct the input text modulo
the whitespace trimmed at chunk boundaries (erasing all whitespace on both
sides gives equality); when it returns no chunks (empty phase list, no valid
positions, or an invalid trailing span with no emitted chunk) the whole text
is absent. -/
theorem claim_C3 (text : List Char) (phases : List EmotionalPhase)
    (h : split_text_by_phases text phases ≠ []) :
    stripAll (joinTexts (split_text_by_phases text phases)) =
      stripAll text :=
  split_coverage_aux text phases h

/-- C3, witness: a 120-character text with one valid phase at offset 60
produces two chunks, and their concatenation reconstructs the text. -/
theorem claim_C3_witness :
    stripAll (joinTexts (split_text_by_phases (List.replicate 120 'a')
        [phPos60])) = stripAll (List.replicate 120 'a') :=
  claim_C3 _ _ (by decide)

/-- C4, counterexample: a 40-character text with one valid phase at offset
20.  The candidate `text[0:20]` is undersized and skipped; the trailing span
`text[20:]` (in fact `text[0:]`, since `last_pos` never advanced) is also
undersized, and since no previous chunk exists the `elif chunks:` merge does
nothing: the function returns `[]` and the non-empty trailing span is
dropped, contradicting "never dropped". -/
theorem claim_C4_counterexample :
    split_text_by_phases (List.replicate 40 'a') [phPos20] = [] ∧
    strip ((List.replicate 40 'a').drop 20) ≠ [] := by
  constructor
  · rfl
  · decide

/-- C4 (amended): after the loop the trailing span is emitted — appended as
a final chunk when size-valid, otherwise (undersized, oversized or
whitespace-only) concatenated onto the previous chunk — **provided** the
result is non-empty; when no chunk was emitted and the trailing span is
invalid, the assembler returns the empty list and the trailing span is
dropped.  (When no phases with valid positions exist the function returns
`[]` without any trailing chunk, so the claim's `"neutral"` fallback branch
is unreachable.)  Formally: either the result is empty, or its concatenated
texts cover all of `text` — trailing span included — modulo whitespace. -/
theorem claim_C4 (text : List Char) (phases : List EmotionalPhase) :
    split_text_by_phases text phases = [] ∨
    stripAll (joinTexts (split_text_by_phases text phases)) =
      stripAll text := by
  by_cases h : split_text_by_phases text phases = []
  · exact Or.inl h
  · exact Or.inr (split_coverage_aux text phases h)
